import Mathlib

/- Shallow embedding of the VC data-enrichment and matching pipeline of the
investment-data-app repository (src/api_integration.py, src/web_scraper.py,
src/openai_integration.py), together with proofs about it.

Modelling conventions:
- Python dicts are insertion-ordered association lists with string keys;
  dict reads take the first binding, dict writes overwrite in place or append,
  exactly as Python preserves insertion order.
- Python numbers are modelled as exact rationals; the source only divides,
  compares and rounds values obtained from integral deal amounts, where
  rational arithmetic agrees with the source's arithmetic.
- Python truthiness is modelled by Value.truthy.
- Fields that the source reads with d.get(key, "") and then uses as strings
  are modelled with getStrD, which also maps non-string values to ""; on a
  non-string value the Python source would raise instead (and the exception
  would be caught at the firm boundary), so the theorems below concern the
  well-typed records the data providers actually produce.
- Network calls of the enrichment step are abstracted as an oracle that either
  returns the provider records or fails; a failure models any exception
  raised inside the per-firm try block.
- Python sorted and list.sort are stable; they are modelled with
  List.insertionSort, which is likewise stable, using the non-strict
  comparison that realizes the reverse=True (descending) or ascending order
  of the source. A stable sort under a total comparison is unique, so the
  two agree on every input. -/

namespace VCApp

/-- Python-style dynamic value: the record fields handled by the pipeline are
strings, numbers (modelled as exact rationals), booleans, lists and nested
dicts; Python None is a separate falsy value. -/
inductive Value : Type
  | none
  | str (s : String)
  | num (q : ℚ)
  | bool (b : Bool)
  | list (elems : List Value)
  | dict (fields : List (String × Value))

/-- Python truthiness of a value. -/
def Value.truthy : Value → Bool
  | Value.none => false
  | Value.str s => decide (s ≠ "")
  | Value.num q => decide (q ≠ 0)
  | Value.bool b => b
  | Value.list l => !l.isEmpty
  | Value.dict l => !l.isEmpty

/-- A Python dict with string keys, as an insertion-ordered association list. -/
abbrev Record : Type := List (String × Value)

/-- Python str.lower, modelled characterwise; the keys, vocabularies and
location lists the source lowercases are ASCII, where Char.toLower agrees
with Python. Defined over the character list so that concrete instances
evaluate inside the kernel. -/
def strLower (s : String) : String := String.mk (s.data.map Char.toLower)

/-- Lookup in an association list: first binding wins, as in a Python dict
read (a dict never holds two bindings of one key). -/
def aget {α : Type} : List (String × α) → String → Option α
  | [], _ => Option.none
  | (k, v) :: r, key => if k = key then some v else aget r key

/-- Python dict assignment: overwrite the existing binding in place, keeping
its position, else append a new binding. -/
def aset {α : Type} : List (String × α) → String → α → List (String × α)
  | [], key, v => [(key, v)]
  | (k, w) :: r, key, v => if k = key then (k, v) :: r else (k, w) :: aset r key v

/-- Truthiness of an optional field, as in the Python tests of the form
value and (key not in d or not d[key]). -/
def truthyO (v : Option Value) : Bool :=
  match v with
  | Option.none => false
  | some w => w.truthy

/-- Value of a string field with the empty-string default used throughout the
source via d.get(key, ""); non-string values are mapped to the default. -/
def getStrD (r : Record) (k : String) : String :=
  match aget r k with
  | some (Value.str s) => s
  | _ => ""

/-- Lowercased company name, embedding company.get("name", "").lower()
(src/api_integration.py line 628). -/
def lowerName (r : Record) : String := strLower (getStrD r "name")

/-- Deal identity key, embedding the f-string company|date|stage key of
_merge_deal_data (src/api_integration.py lines 666-671). -/
def dealKey (d : Record) : String :=
  strLower (getStrD d "company") ++ "|" ++ getStrD d "date" ++ "|" ++
    strLower (getStrD d "stage")

/-- First pass of the two-source merge: insert each first-source record under
its key, later same-key records overwriting earlier ones; records with an
empty key are dropped (src/api_integration.py lines 626-630, 673-677). -/
def mstep1 (key : Record → String) (m : List (String × Record)) (c : Record) :
    List (String × Record) :=
  if key c = "" then m else aset m (key c) c

/-- Field-level update of an existing record by a second-source record: a
field is overwritten only when the incoming value is truthy and the existing
field is missing or falsy (src/api_integration.py lines 640-642, 687-689). -/
def updFields (e c : Record) : Record :=
  c.foldl (fun e kv => if kv.2.truthy && !truthyO (aget e kv.1) then aset e kv.1 kv.2 else e) e

/-- Second pass of the two-source merge: a record under a new key is inserted
as-is, one under an existing key field-updates the stored record
(src/api_integration.py lines 632-645, 679-692). -/
def mstep2 (key : Record → String) (m : List (String × Record)) (c : Record) :
    List (String × Record) :=
  if key c = "" then m
  else
    match aget m (key c) with
    | some e => aset m (key c) (updFields e c)
    | Option.none => aset m (key c) c

/-- Keyed two-source merge, the common shape of _merge_company_data and
_merge_deal_data: the values of the built dict in insertion order, so listA
records come first in listA order, then listB-only records in listB order. -/
def mergeRecords (key : Record → String) (listA listB : List Record) : List Record :=
  (listB.foldl (mstep2 key) (listA.foldl (mstep1 key) [])).map Prod.snd

/-- VCDataEnricher._merge_company_data (src/api_integration.py lines 609-647),
keyed by the lowercased company name. -/
def mergeCompanyData (cbCompanies pbCompanies : List Record) : List Record :=
  mergeRecords lowerName cbCompanies pbCompanies

/-- VCDataEnricher._merge_deal_data (src/api_integration.py lines 649-694),
keyed by the company|date|stage key. -/
def mergeDealData (cbDeals pbDeals : List Record) : List Record :=
  mergeRecords dealKey cbDeals pbDeals

/-- The record a Python dict keyed by key holds for k after inserting a whole
list: the last record of the list whose key is k. -/
def recordFor (key : Record → String) : List Record → String → Option Record
  | [], _ => Option.none
  | c :: l, k =>
    match recordFor key l k with
    | some r => some r
    | Option.none => if key c = k then some c else Option.none

/-- A record is well-named when its name field, if present, is a string, so
that the Python expression company.get("name", "").lower() is defined. -/
def wellNamed (r : Record) : Bool :=
  match aget r "name" with
  | Option.none => true
  | some (Value.str _) => true
  | some _ => false

/-- The dict built by _merge_company_data before its values are listed
(src/api_integration.py lines 624-645). -/
def mergedCompanyDict (listA listB : List Record) : List (String × Record) :=
  listB.foldl (mstep2 lowerName) (listA.foldl (mstep1 lowerName) [])

/-- Crunchbase-side company list of the merge-precedence example of spec.md
section 8. -/
def exCompanyA : Record := [("name", Value.str "Acme"), ("website", Value.str "a.com")]

/-- PitchBook-side company record of the merge-precedence example of spec.md
section 8. -/
def exCompanyB : Record :=
  [("name", Value.str "Acme"), ("website", Value.str "b.com"), ("founded", Value.str "2020")]

/-- Two distinctly named companies used to instantiate the identity-merge
theorem. -/
def exCompanyList : List Record :=
  [[("name", Value.str "Acme"), ("website", Value.str "a.com")],
   [("name", Value.str "Beta")]]

/-- Python round to an integer: round-half-to-even (banker's rounding), the
behavior of the built-in round used by the check-size code. -/
def roundHalfEven (x : ℚ) : ℤ :=
  if x - (Rat.floor x : ℚ) < 1 / 2 then Rat.floor x
  else if 1 / 2 < x - (Rat.floor x : ℚ) then Rat.floor x + 1
  else if Rat.floor x % 2 = 0 then Rat.floor x else Rat.floor x + 1

/-- Amount of a deal, deal.get("amount", 0), modelled as an exact rational;
a non-numeric amount is modelled as the 0 default (in Python it would raise
inside the enrichment try block instead). -/
def amountOf (d : Record) : ℚ :=
  match aget d "amount" with
  | some (Value.num a) => a
  | _ => 0

/-- The positive deal amounts in deal order, as collected by the loops of
_calculate_check_range and _calculate_sweet_spot (src/api_integration.py
lines 798-804, 856-862). -/
def positiveAmounts (deals : List Record) : List ℚ :=
  deals.filterMap (fun d => if 0 < amountOf d then some (amountOf d) else Option.none)

/-- Python min over a nonempty list (0 for the empty list, unreached). -/
def minQ : List ℚ → ℚ
  | [] => 0
  | a :: l => l.foldl min a

/-- Python max over a nonempty list (0 for the empty list, unreached). -/
def maxQ : List ℚ → ℚ
  | [] => 0
  | a :: l => l.foldl max a

/-- Python list.sort() on numbers: sort ascending. -/
def sortQ (l : List ℚ) : List ℚ := List.insertionSort (fun a b => a ≤ b) l

/-- VCDataEnricher._calculate_check_range (src/api_integration.py lines
788-817): min and max positive amount in thousands, rounded to the nearest
50 with Python round semantics; (0, 0) without positive amounts. -/
def calculateCheckRange (deals : List Record) : ℚ × ℚ :=
  if positiveAmounts deals = [] then (0, 0)
  else
    (((roundHalfEven (minQ (positiveAmounts deals) / 1000 / 50) * 50 : ℤ) : ℚ),
     ((roundHalfEven (maxQ (positiveAmounts deals) / 1000 / 50) * 50 : ℤ) : ℚ))

/-- VCDataEnricher._calculate_sweet_spot (src/api_integration.py lines
846-880): the median of the sorted positive amounts (average of the two
middle elements for an even count), in thousands, rounded to the nearest 50;
0 without positive amounts. -/
def calculateSweetSpot (deals : List Record) : ℚ :=
  if positiveAmounts deals = [] then 0
  else
    ((roundHalfEven
      ((if (sortQ (positiveAmounts deals)).length % 2 = 0 then
          (((sortQ (positiveAmounts deals)).getD ((sortQ (positiveAmounts deals)).length / 2 - 1) 0) +
            ((sortQ (positiveAmounts deals)).getD ((sortQ (positiveAmounts deals)).length / 2) 0)) / 2
        else (sortQ (positiveAmounts deals)).getD ((sortQ (positiveAmounts deals)).length / 2) 0)
        / 1000 / 50) * 50 : ℤ) : ℚ)

/-- Decimal digits of an integer, as Python str() renders it. -/
def intStr (n : ℤ) : String := toString n

/-- Python f-string formatting with one decimal place, for the nonnegative
check sizes the source formats: the value is scaled by ten and rounded
half-to-even, matching the float .1f formatting of these exactly
representable values. -/
def fmtOneDec (q : ℚ) : String :=
  intStr (roundHalfEven (q * 10) / 10) ++ "." ++ intStr (roundHalfEven (q * 10) % 10)

/-- Python f-string formatting with no decimal place, for nonnegative values. -/
def fmtZeroDec (q : ℚ) : String := intStr (roundHalfEven q)

/-- VCDataEnricher._format_sweet_spot (src/api_integration.py lines 882-899). -/
def formatSweetSpot (s : ℚ) : String :=
  if s = 0 then "Unknown"
  else if 1000 ≤ s then "$" ++ fmtOneDec (s / 1000) ++ "M"
  else "$" ++ fmtZeroDec s ++ "k"

/-- VCDataEnricher._format_check_range (src/api_integration.py lines 819-844). -/
def formatCheckRange (mn mx : ℚ) : String :=
  if mn = 0 ∧ mx = 0 then "Unknown"
  else
    (if 1000 ≤ mn then "$" ++ fmtOneDec (mn / 1000) ++ "M" else "$" ++ fmtZeroDec mn ++ "k") ++
      "-" ++
      (if 1000 ≤ mx then "$" ++ fmtOneDec (mx / 1000) ++ "M" else "$" ++ fmtZeroDec mx ++ "k")

/-- Median of a list of rationals as the spec words it: sort ascending, take
the middle element, or the average of the two middle elements for an even
count. -/
def medianQ (l : List ℚ) : ℚ :=
  if (sortQ l).length % 2 = 0 then
    (((sortQ l).getD ((sortQ l).length / 2 - 1) 0) + ((sortQ l).getD ((sortQ l).length / 2) 0)) / 2
  else (sortQ l).getD ((sortQ l).length / 2) 0

/-- Rounding to the nearest multiple of 50 as the spec words it, with the
half-to-even tie behavior of Python round. -/
def specRound50 (x : ℚ) : ℚ := ((50 * roundHalfEven (x / 50) : ℤ) : ℚ)

/-- The four-deal example of spec.md section 8: amounts 750000, 2500000,
8000000, 15000000. -/
def exDeals : List Record :=
  [[("amount", Value.num 750000)], [("amount", Value.num 2500000)],
   [("amount", Value.num 8000000)], [("amount", Value.num 15000000)]]

/-- Python truthiness of deal.get("is_lead", False)
(src/api_integration.py line 915). -/
def isLeadTruthy (d : Record) : Bool := truthyO (aget d "is_lead")

/-- The lead and total counters of _determine_lead_follow
(src/api_integration.py lines 911-918). -/
def leadCounts (deals : List Record) : ℕ × ℕ :=
  deals.foldl (fun p d => (if isLeadTruthy d then p.1 + 1 else p.1, p.2 + 1)) (0, 0)

/-- VCDataEnricher._determine_lead_follow (src/api_integration.py lines
901-930). -/
def determineLeadFollow (deals : List Record) : String :=
  if (leadCounts deals).2 = 0 then "Unknown"
  else if 7 / 10 ≤ ((leadCounts deals).1 : ℚ) / ((leadCounts deals).2 : ℚ) then "Lead"
  else if ((leadCounts deals).1 : ℚ) / ((leadCounts deals).2 : ℚ) ≤ 3 / 10 then "Follow"
  else "Both"

/-- The lead/follow classification as the spec words it: the ratio of deals
with a truthy is_lead over all deals, against the 0.7 and 0.3 thresholds,
Unknown on an empty deal list. -/
def specLeadFollow (deals : List Record) : String :=
  if deals.length = 0 then "Unknown"
  else if 7 / 10 ≤ ((deals.countP isLeadTruthy : ℕ) : ℚ) / ((deals.length : ℕ) : ℚ) then "Lead"
  else if ((deals.countP isLeadTruthy : ℕ) : ℚ) / ((deals.length : ℕ) : ℚ) ≤ 3 / 10 then "Follow"
  else "Both"

/-- A deal marked as led by the firm. -/
def leadDeal : Record := [("is_lead", Value.bool true)]

/-- A deal not led by the firm. -/
def followDeal : Record := [("is_lead", Value.bool false)]

/-- Ten deals, seven of them led. -/
def exLead7 : List Record := List.replicate 7 leadDeal ++ List.replicate 3 followDeal

/-- Ten deals, three of them led. -/
def exLead3 : List Record := List.replicate 3 leadDeal ++ List.replicate 7 followDeal

/-- Ten deals, five of them led. -/
def exLead5 : List Record := List.replicate 5 leadDeal ++ List.replicate 5 followDeal

/-- Python sep.join(list). -/
def joinSep (sep : String) : List String → String
  | [] => ""
  | [x] => x
  | x :: y :: t => x ++ sep ++ joinSep sep (y :: t)

/-- The up-to-three sample portfolio names of _derive_investment_thesis
(src/api_integration.py line 1059): string names of the first three
portfolio companies whose name is truthy. -/
def sampleNames (portfolio : List Record) : List String :=
  (portfolio.take 3).filterMap (fun c =>
    match aget c "name" with
    | some (Value.str s) => if s ≠ "" then some s else Option.none
    | _ => Option.none)

/-- The synthesized Pattern text before the portfolio insight
(src/api_integration.py lines 1045-1055). -/
def patternThesisBase (sectors stages : List String) : String :=
  if sectors ≠ [] then
    "Pattern: Invests in " ++ joinSep ", " (sectors.take 3) ++
      (if stages ≠ [] then " at " ++ joinSep ", " stages ++ " stages" else "") ++ "."
  else if stages ≠ [] then
    "Pattern: Focuses on " ++ joinSep ", " stages ++ " stage investments."
  else "Pattern: General investment approach across various sectors and stages."

/-- The full synthesized Pattern thesis, with the portfolio insight appended
when the portfolio has at least three companies and a nonempty name sample
(src/api_integration.py lines 1057-1061). -/
def patternThesis (sectors stages : List String) (portfolio : List Record) : String :=
  if portfolio.length ≠ 0 ∧ 3 ≤ portfolio.length then
    if sampleNames portfolio ≠ [] then
      patternThesisBase sectors stages ++ " Portfolio includes " ++
        joinSep ", " (sampleNames portfolio) ++ "."
    else patternThesisBase sectors stages
  else patternThesisBase sectors stages

/-- The description used by _derive_investment_thesis: Crunchbase's if truthy,
else PitchBook's (src/api_integration.py lines 1035-1038). -/
def descOf (cbInfo pbInfo : Record) : String :=
  if getStrD cbInfo "description" ≠ "" then getStrD cbInfo "description"
  else getStrD pbInfo "description"

/-- VCDataEnricher._derive_investment_thesis (src/api_integration.py lines
1013-1063). -/
def deriveInvestmentThesis (cbInfo pbInfo : Record) (sectors stages : List String)
    (portfolio : List Record) : String :=
  if descOf cbInfo pbInfo ≠ "" ∧ 20 < (descOf cbInfo pbInfo).length then
    "Thesis: " ++ descOf cbInfo pbInfo
  else patternThesis sectors stages portfolio

/-- A provider info record whose description is nonempty but short
(9 characters). -/
def exCbShort : Record := [("description", Value.str "Great VCs")]

/-- A provider info record whose description exceeds 20 characters. -/
def exPbLong : Record :=
  [("description", Value.str "We invest in enterprise software startups")]

/-- Substring test on character lists, embedding the Python in operator. -/
def listContains (needle : List Char) : List Char → Bool
  | [] => needle.isEmpty
  | c :: t => needle.isPrefixOf (c :: t) || listContains needle t

/-- Python needle in hay substring test. -/
def strContains (hay needle : String) : Bool := listContains needle.data hay.data

/-- Python hay.startswith(p). -/
def strStartsWith (s p : String) : Bool := p.data.isPrefixOf s.data

/-- Python any(kw in hay for kw in needles). -/
def anyContains (hay : String) (needles : List String) : Bool :=
  needles.any (fun n => strContains hay n)

/-- VCDataEnricher._normalize_stage (src/api_integration.py lines 759-786). -/
def normalizeStage (stage : String) : String :=
  if strContains (strLower stage) "pre-seed" || strContains (strLower stage) "preseed" then
    "Pre-seed"
  else if strContains (strLower stage) "seed" || strContains (strLower stage) "angel" then
    "Seed"
  else if strContains (strLower stage) "series a" then "Series A"
  else if strContains (strLower stage) "series b" then "Series B"
  else if strContains (strLower stage) "series c" || strContains (strLower stage) "series d" ||
      strContains (strLower stage) "series e" || strContains (strLower stage) "series f" then
    "Series C+"
  else if strContains (strLower stage) "late" && strContains (strLower stage) "stage" then
    "Series C+"
  else if strContains (strLower stage) "early" && strContains (strLower stage) "stage" then
    "Seed+"
  else ""

/-- One counting step of a Python dict used as a counter: increment the key's
binding or insert it with count 1. -/
def bumpCount (m : List (String × ℕ)) (s : String) : List (String × ℕ) :=
  match aget m s with
  | some c => aset m s (c + 1)
  | Option.none => aset m s 1

/-- Occurrence counts of a list of strings, keyed in first-occurrence order
as a Python dict counter is. -/
def countList (l : List String) : List (String × ℕ) := l.foldl bumpCount []

/-- The nonempty string categories of a portfolio company
(src/api_integration.py lines 710-713); a missing or non-list categories
field contributes nothing. -/
def categoriesOf (c : Record) : List String :=
  match aget c "categories" with
  | some (Value.list vs) =>
    vs.filterMap (fun v =>
      match v with
      | Value.str s => if s ≠ "" then some s else Option.none
      | _ => Option.none)
  | _ => []

/-- VCDataEnricher._derive_sector_focus (src/api_integration.py lines
696-725): categories occurring at least twice, sorted by descending count
(Python stable sort), capped at 10. -/
def deriveSectorFocus (portfolio : List Record) : List String :=
  ((List.insertionSort (fun a b : String × ℕ => b.2 ≤ a.2)
      ((countList (portfolio.foldl (fun acc c => acc ++ categoriesOf c) [])).filter
        (fun p => 2 ≤ p.2))).map Prod.fst).take 10

/-- The normalized stages of a deal list in deal order, dropping empty raw
stages and unmapped normalizations (src/api_integration.py lines 739-746). -/
def stagesOf (deals : List Record) : List String :=
  deals.foldl (fun acc d =>
    if getStrD d "stage" ≠ "" then
      if normalizeStage (getStrD d "stage") ≠ "" then
        acc ++ [normalizeStage (getStrD d "stage")]
      else acc
    else acc) []

/-- VCDataEnricher._derive_stage_preference (src/api_integration.py lines
727-757): normalized stages occurring at least twice, sorted by descending
count (Python stable sort). -/
def deriveStagePreference (deals : List Record) : List String :=
  (List.insertionSort (fun a b : String × ℕ => b.2 ≤ a.2)
      ((countList (stagesOf deals)).filter (fun p => 2 ≤ p.2))).map Prod.fst

/-- The location used by _determine_geo_focus: Crunchbase's if truthy, else
PitchBook's (src/api_integration.py lines 950-953). -/
def locOf (cbInfo pbInfo : Record) : String :=
  if getStrD cbInfo "location" ≠ "" then getStrD cbInfo "location"
  else getStrD pbInfo "location"

/-- VCDataEnricher._determine_geo_focus (src/api_integration.py lines
932-1011); the portfolio argument is accepted and unused, as in the source. -/
def determineGeoFocus (cbInfo pbInfo : Record) (_portfolio : List Record) : String :=
  if locOf cbInfo pbInfo ≠ "" then
    if anyContains (strLower (locOf cbInfo pbInfo))
        ["san francisco", "palo alto", "menlo park", "mountain view",
         "silicon valley", "bay area", "san jose", "oakland"] then "Silicon Valley"
    else if anyContains (strLower (locOf cbInfo pbInfo))
        ["new york", "nyc", "brooklyn", "manhattan"] then "New York"
    else if anyContains (strLower (locOf cbInfo pbInfo))
        ["boston", "cambridge, ma", "massachusetts"] then "Boston"
    else if anyContains (strLower (locOf cbInfo pbInfo))
        ["chicago", "detroit", "minneapolis", "ohio", "michigan",
         "illinois", "wisconsin", "indiana"] then "Midwest"
    else if anyContains (strLower (locOf cbInfo pbInfo))
        ["atlanta", "miami", "florida", "carolina", "tennessee",
         "georgia", "alabama", "louisiana"] then "Southeast"
    else if anyContains (strLower (locOf cbInfo pbInfo))
        ["texas", "austin", "dallas", "houston"] then "Texas"
    else if anyContains (strLower (locOf cbInfo pbInfo))
        ["seattle", "portland", "washington", "oregon"] then "Pacific Northwest"
    else if anyContains (strLower (locOf cbInfo pbInfo))
        ["london", "berlin", "paris", "amsterdam", "europe"] then "Europe"
    else if anyContains (strLower (locOf cbInfo pbInfo))
        ["china", "india", "japan", "singapore", "hong kong", "asia"] then "Asia"
    else if strContains (strLower (locOf cbInfo pbInfo)) "ca" ||
        strContains (strLower (locOf cbInfo pbInfo)) "california" then "California"
    else "USA"
  else "USA"

/-- The Active/Unknown status rule of enrich_vc_data
(src/api_integration.py lines 1110-1114). -/
def statusOf (mergedDeals mergedPortfolio : List Record) : String :=
  if (mergedDeals.length = 0 ∨
      (mergedDeals.any fun d => strStartsWith (getStrD d "date") "202") = false) ∧
      mergedPortfolio.length = 0 then "Unknown"
  else "Active"

/-- Sequential Python dict updates d[k] = v, as in a dict literal that starts
from an unpacked record. -/
def setAll (r : Record) (kvs : List (String × Value)) : Record :=
  kvs.foldl (fun r kv => aset r kv.1 kv.2) r

/-- The provider responses consumed by one firm's enrichment: info records
from both sources plus both portfolio and both deal lists, the results of
steps 1 and 2 of enrich_vc_data. -/
structure ProviderData where
  cbInfo : Record
  pbInfo : Record
  cbPortfolio : List Record
  cbDeals : List Record
  pbPortfolio : List Record
  pbDeals : List Record

/-- The network side of enrich_vc_data, abstracted: given a firm name, either
the provider data or a failure standing for any exception raised inside the
per-firm try block. -/
def Provider : Type := String → Except String ProviderData

/-- Steps 3 to 5 of enrich_vc_data on successfully fetched provider data
(src/api_integration.py lines 1093-1132): merge both sources, derive the
analytics and build the enhanced record on top of the original input record. -/
def enrichOk (vc : Record) (pd : ProviderData) : Record :=
  setAll vc
    [("About", Value.str (if getStrD pd.cbInfo "description" ≠ "" then
        getStrD pd.cbInfo "description" else getStrD pd.pbInfo "description")),
     ("Investment Thesis", Value.str (deriveInvestmentThesis pd.cbInfo pd.pbInfo
        (deriveSectorFocus (mergeCompanyData pd.cbPortfolio pd.pbPortfolio))
        (deriveStagePreference (mergeDealData pd.cbDeals pd.pbDeals))
        (mergeCompanyData pd.cbPortfolio pd.pbPortfolio))),
     ("Sector Focus", Value.list
        ((deriveSectorFocus (mergeCompanyData pd.cbPortfolio pd.pbPortfolio)).map Value.str)),
     ("Preferred Deal Stage", Value.list
        ((deriveStagePreference (mergeDealData pd.cbDeals pd.pbDeals)).map Value.str)),
     ("Check Range", Value.str (formatCheckRange
        (calculateCheckRange (mergeDealData pd.cbDeals pd.pbDeals)).1
        (calculateCheckRange (mergeDealData pd.cbDeals pd.pbDeals)).2)),
     ("Check Sweet Spot", Value.str
        (formatSweetSpot (calculateSweetSpot (mergeDealData pd.cbDeals pd.pbDeals)))),
     ("Geo Focus", Value.str (determineGeoFocus pd.cbInfo pd.pbInfo
        (mergeCompanyData pd.cbPortfolio pd.pbPortfolio))),
     ("Status", Value.str (statusOf (mergeDealData pd.cbDeals pd.pbDeals)
        (mergeCompanyData pd.cbPortfolio pd.pbPortfolio))),
     ("Lead/Follow", Value.str (determineLeadFollow (mergeDealData pd.cbDeals pd.pbDeals))),
     ("Portfolio", Value.list
        ((mergeCompanyData pd.cbPortfolio pd.pbPortfolio).map Value.dict)),
     ("Deals", Value.list ((mergeDealData pd.cbDeals pd.pbDeals).map Value.dict))]

/-- The default derived fields of the per-firm exception handler
(src/api_integration.py lines 1137-1150 and 1172-1185). -/
def defaultFields : List (String × Value) :=
  [("About", Value.str ""), ("Investment Thesis", Value.str ""),
   ("Sector Focus", Value.list []), ("Preferred Deal Stage", Value.list []),
   ("Check Range", Value.str "Unknown"), ("Check Sweet Spot", Value.str "Unknown"),
   ("Geo Focus", Value.str "USA"), ("Status", Value.str "Unknown"),
   ("Lead/Follow", Value.str "Unknown"), ("Portfolio", Value.list []),
   ("Deals", Value.list [])]

/-- The fully defaulted record built by the per-firm exception handler: the
original input fields with every derived field set to its default. -/
def defaultedRecord (vc : Record) : Record := setAll vc defaultFields

/-- VCDataEnricher.enrich_vc_data (src/api_integration.py lines 1065-1150):
a nameless record is returned unchanged; otherwise the provider oracle is
consulted and a failure is caught and replaced by the defaulted record. -/
def enrichVCData (P : Provider) (vc : Record) : Record :=
  if getStrD vc "Name" = "" then vc
  else
    match P (getStrD vc "Name") with
    | Except.error _ => defaultedRecord vc
    | Except.ok pd => enrichOk vc pd

/-- VCDataEnricher.enrich_multiple_vcs (src/api_integration.py lines
1152-1187): the sequential loop appending one enriched record per input
firm; its own exception handler builds the same defaulted record and is
unreachable in this model because enrichVCData is total. -/
def enrichMultipleVCs (P : Provider) (vcList : List Record) : List Record :=
  vcList.foldl (fun acc vc => acc ++ [enrichVCData P vc]) []

/-- A provider oracle whose calls always fail. -/
def failProvider : Provider := fun _ => Except.error "network error"

/-- A sample input firm record. -/
def exFirm : Record :=
  [("Name", Value.str "Acme Ventures"), ("Website", Value.str "acmeventures.com")]

/-- Python str.split(): split on whitespace runs, dropping empty pieces;
the accumulator holds the current word reversed. -/
def wordsAux : List Char → List Char → List String
  | [], cur => if cur.isEmpty then [] else [String.mk cur.reverse]
  | c :: t, cur =>
    if c.isWhitespace then
      if cur.isEmpty then wordsAux t [] else String.mk cur.reverse :: wordsAux t []
    else wordsAux t (c :: cur)

/-- Python s.split() with no separator argument. -/
def splitWords (s : String) : List String := wordsAux s.data []

/-- The fallback sector keyword table of _fallback_matching
(src/openai_integration.py lines 288-296). -/
def fbSectorKeywords : List (String × List String) :=
  [("fintech", ["fintech", "financial", "banking", "payment", "insurance"]),
   ("enterprise saas", ["enterprise", "saas", "software", "b2b"]),
   ("health tech", ["health", "medical", "biotech", "healthcare"]),
   ("ai/ml", ["ai", "artificial intelligence", "machine learning", "ml"]),
   ("ecommerce", ["ecommerce", "e-commerce", "retail", "consumer"]),
   ("edtech", ["education", "learning", "edtech"]),
   ("climate tech", ["climate", "clean", "sustainability", "green"])]

/-- The fallback stage keyword table of _fallback_matching
(src/openai_integration.py lines 298-303). -/
def fbStageKeywords : List (String × List String) :=
  [("pre-seed", ["pre-seed", "pre seed", "idea", "concept"]),
   ("seed", ["seed", "early", "prototype"]),
   ("series a", ["series a", "growth", "revenue"]),
   ("series b", ["series b", "scale", "expansion"])]

/-- The table entries any of whose keywords occur in the lowercased
description (src/openai_integration.py lines 305-314). -/
def fbMatched (dl : String) (table : List (String × List String)) : List String :=
  table.filterMap (fun p =>
    if p.2.any (fun kw => strContains dl kw) then some p.1 else Option.none)

/-- The lead/follow preference inferred from the description
(src/openai_integration.py lines 316-321). -/
def fbLeadPref (dl : String) : Option String :=
  if anyContains dl ["lead investor", "lead round"] then some "Lead"
  else if anyContains dl ["follow-on", "follow on"] then some "Follow"
  else Option.none

/-- The elements of a list-valued field, empty for other shapes. -/
def strListOf (v : Option Value) : List Value :=
  match v with
  | some (Value.list vs) => vs
  | _ => []

/-- The matched sectors present (case-insensitively) in the profile's Sector
Focus (src/openai_integration.py lines 328-333). -/
def fbSectorHits (matchedSectors : List String) (vc : Record) : List String :=
  if truthyO (aget vc "Sector Focus") && !matchedSectors.isEmpty then
    matchedSectors.filter (fun sector =>
      (strListOf (aget vc "Sector Focus")).any (fun v =>
        match v with
        | Value.str s => strLower s == strLower sector
        | _ => false))
  else []

/-- The matched stages present (case-insensitively) in the profile's
Preferred Deal Stage (src/openai_integration.py lines 335-340). -/
def fbStageHits (matchedStages : List String) (vc : Record) : List String :=
  if truthyO (aget vc "Preferred Deal Stage") && !matchedStages.isEmpty then
    matchedStages.filter (fun stage =>
      (strListOf (aget vc "Preferred Deal Stage")).any (fun v =>
        match v with
        | Value.str s => strLower s == strLower stage
        | _ => false))
  else []

/-- Whether the lead/follow 10-point bonus fires
(src/openai_integration.py lines 342-346). -/
def fbLeadScore (dl : String) (vc : Record) : Bool :=
  match fbLeadPref dl with
  | some lp =>
    truthyO (aget vc "Lead/Follow") &&
      (match aget vc "Lead/Follow" with
       | some (Value.str s) => s == lp || s == "Both"
       | _ => false)
  | Option.none => false

/-- Whether the thesis 15-point bonus fires: some description word longer
than 4 characters occurs in the lowercased thesis
(src/openai_integration.py lines 348-355). -/
def fbThesisHit (dl : String) (vc : Record) : Bool :=
  truthyO (aget vc "Investment Thesis") &&
    (splitWords dl).any (fun kw =>
      decide (4 < kw.length) &&
        strContains
          (match aget vc "Investment Thesis" with
           | some (Value.str s) => strLower s
           | _ => "")
          kw)

/-- Whether the Active-status 5-point bonus fires
(src/openai_integration.py lines 357-359). -/
def fbStatusHit (vc : Record) : Bool :=
  match aget vc "Status" with
  | some (Value.str s) => s == "Active"
  | _ => false

/-- The fallback score of one profile before the cap at 100
(src/openai_integration.py lines 323-359). -/
def fbScore (dl : String) (vc : Record) : ℕ :=
  30 * (fbSectorHits (fbMatched dl fbSectorKeywords) vc).length +
    20 * (fbStageHits (fbMatched dl fbStageKeywords) vc).length +
    (if fbLeadScore dl vc then 10 else 0) +
    (if fbThesisHit dl vc then 15 else 0) +
    (if fbStatusHit vc then 5 else 0)

/-- The match reasons in source order: sector, stage, lead/follow, thesis
(src/openai_integration.py lines 326-355). -/
def fbReasons (dl : String) (vc : Record) : List String :=
  (fbSectorHits (fbMatched dl fbSectorKeywords) vc).map (fun s => "Sector match: " ++ s) ++
    (fbStageHits (fbMatched dl fbStageKeywords) vc).map (fun s => "Stage match: " ++ s) ++
    (if fbLeadScore dl vc then
      (match fbLeadPref dl with
       | some lp => ["Lead/Follow match: " ++ lp]
       | Option.none => [])
     else []) ++
    (if fbThesisHit dl vc then ["Thesis keywords match"] else [])

/-- The match record appended for a positively scored profile
(src/openai_integration.py lines 361-367). -/
def fbEntry (dl : String) (vc : Record) : Record :=
  setAll vc
    [("match_score", Value.num ((min (fbScore dl vc) 100 : ℕ) : ℚ)),
     ("match_reason", Value.str (joinSep "; " (fbReasons dl vc))),
     ("caution", Value.str
       "This match was generated by a simplified algorithm due to API limitations.")]

/-- The sort key x['match_score'] of the final ranking. -/
def matchScoreOf (r : Record) : ℚ :=
  match aget r "match_score" with
  | some (Value.num q) => q
  | _ => 0

/-- VCMatcher._fallback_matching (src/openai_integration.py lines 267-371):
keyword matching against the description, per-profile scoring, descending
stable sort by match_score and truncation to the requested count. -/
def fallbackMatching (startupDescription : String) (vcData : List Record)
    (numMatches : ℕ) : List Record :=
  (List.insertionSort (fun a b : Record => matchScoreOf b ≤ matchScoreOf a)
    (vcData.foldl (fun acc vc =>
      if 0 < fbScore (strLower startupDescription) vc then
        acc ++ [fbEntry (strLower startupDescription) vc]
      else acc) [])).take numMatches

/-- Python text.count(needle): non-overlapping occurrences scanned from the
left; an empty needle counts length plus one as in Python. -/
def countOccur (needle : List Char) (hay : List Char) : ℕ :=
  if hn : needle = [] then hay.length + 1
  else
    match hay with
    | [] => 0
    | c :: t =>
      if needle.isPrefixOf (c :: t) then 1 + countOccur needle ((c :: t).drop needle.length)
      else countOccur needle t
termination_by hay.length
decreasing_by
  · simp only [List.length_drop, List.length_cons]
    have hpos : 0 < needle.length := List.length_pos.mpr hn
    omega
  · simp only [List.length_cons]
    omega

/-- The sector vocabulary of VCWebScraper._extract_sectors
(src/web_scraper.py lines 337-357). -/
def sectorVocab : List (String × List String) :=
  [("Fintech", ["fintech", "financial technology", "financial services", "banking",
      "insurance", "payments"]),
   ("Enterprise SaaS", ["enterprise", "saas", "software as a service", "b2b software",
      "cloud software"]),
   ("Health Tech", ["health", "healthcare", "medical", "biotech", "life sciences",
      "digital health"]),
   ("AI/ML", ["ai", "artificial intelligence", "machine learning", "deep learning",
      "nlp", "computer vision"]),
   ("Cybersecurity", ["security", "cybersecurity", "infosec", "data protection",
      "privacy"]),
   ("E-commerce", ["e-commerce", "ecommerce", "e commerce", "retail",
      "direct to consumer", "d2c", "dtc"]),
   ("Edtech", ["education", "edtech", "learning", "teaching", "training"]),
   ("Climate Tech", ["climate", "cleantech", "sustainability", "green", "renewable",
      "carbon"]),
   ("Consumer Apps", ["consumer", "apps", "mobile apps", "social media",
      "social network"]),
   ("B2B Marketplace", ["b2b", "marketplace", "platform", "exchange"]),
   ("Web3/Blockchain", ["web3", "blockchain", "crypto", "bitcoin", "ethereum", "nft",
      "defi", "dao"]),
   ("Hardware", ["hardware", "devices", "iot", "internet of things", "sensors",
      "electronics"]),
   ("Robotics", ["robotics", "robots", "automation", "autonomous"]),
   ("AR/VR", ["augmented reality", "virtual reality", "ar", "vr", "mixed reality",
      "metaverse"]),
   ("Space", ["space", "aerospace", "satellite", "launch"]),
   ("AgTech", ["agriculture", "agtech", "farming", "food production"]),
   ("Manufacturing", ["manufacturing", "industry 4.0", "industrial", "factories"]),
   ("PropTech", ["real estate", "proptech", "construction", "buildings"]),
   ("Mobility", ["mobility", "transportation", "automotive", "electric vehicles",
      "ev"])]

/-- Total keyword-occurrence count of a keyword list over a lowercased text
(src/web_scraper.py line 372). -/
def textScore (tl : List Char) (keywords : List String) : ℕ :=
  (keywords.map (fun kw => countOccur kw.data tl)).sum

/-- The first pass of _extract_sectors: every vocabulary sector one of whose
keywords occurs in the lowercased text, in vocabulary order
(src/web_scraper.py lines 359-363). -/
def flaggedSectors (text : String) : List String :=
  sectorVocab.filterMap (fun p =>
    if p.2.any (fun kw => listContains kw.data (strLower text).data) then some p.1
    else Option.none)

/-- Total keyword-occurrence count of a sector over a text, the ranking
score of the more-than-five case. -/
def sectorScore (text sector : String) : ℕ :=
  textScore (strLower text).data ((aget sectorVocab sector).getD [])

/-- The sector_scores dict of the more-than-five case, in vocabulary order
(src/web_scraper.py lines 368-373). -/
def sectorScoresList (text : String) : List (String × ℕ) :=
  sectorVocab.filterMap (fun p =>
    if (flaggedSectors text).contains p.1 then
      some (p.1, textScore (strLower text).data p.2)
    else Option.none)

/-- VCWebScraper._extract_sectors (src/web_scraper.py lines 324-378): the
flagged sectors, unless more than five flag, in which case the five with the
highest scores under Python's stable descending sort. -/
def extractSectors (text : String) : List String :=
  if 5 < (flaggedSectors text).length then
    ((List.insertionSort (fun a b : String × ℕ => b.2 ≤ a.2)
        (sectorScoresList text)).take 5).map Prod.fst
  else flaggedSectors text

/-- A text flagging one sector. -/
def exTextSmall : String := "fintech banking"

/-- A text flagging seven sectors. -/
def exTextBig : String :=
  "fintech enterprise health security education climate robotics"

instance : IsTotal (String × ℕ) (fun a b => b.2 ≤ a.2) :=
  ⟨fun a b => le_total b.2 a.2⟩

instance : IsTrans (String × ℕ) (fun a b => b.2 ≤ a.2) :=
  ⟨fun _ _ _ h1 h2 => le_trans h2 h1⟩

section AssocLemmas

variable {α : Type}

theorem aget_aset_self (m : List (String × α)) (k : String) (v : α) :
    aget (aset m k v) k = some v := by
  induction m with
  | nil => simp [aget, aset]
  | cons h t ih =>
    obtain ⟨k', w⟩ := h
    by_cases hk : k' = k
    · simp [aget, aset, hk]
    · simp [aget, aset, hk, ih]

theorem aget_aset_ne (m : List (String × α)) (k k' : String) (v : α) (h : k' ≠ k) :
    aget (aset m k v) k' = aget m k' := by
  induction m with
  | nil =>
    have hne : ¬k = k' := fun hh => h hh.symm
    simp [aget, aset, hne]
  | cons p t ih =>
    obtain ⟨k₀, w⟩ := p
    by_cases hk : k₀ = k
    · subst hk
      have hne : ¬k₀ = k' := fun hh => h hh.symm
      simp [aget, aset, hne]
    · simp only [aset, if_neg hk, aget]
      by_cases hk' : k₀ = k'
      · simp [hk']
      · simp [hk', ih]

theorem aget_mem (m : List (String × α)) (k : String) (v : α)
    (h : aget m k = some v) : (k, v) ∈ m := by
  induction m with
  | nil => simp [aget] at h
  | cons p t ih =>
    obtain ⟨k₀, w⟩ := p
    by_cases hk : k₀ = k
    · subst hk
      simp [aget] at h
      simp [h]
    · simp [aget, hk] at h
      exact List.mem_cons_of_mem _ (ih h)

theorem aget_append (l₁ l₂ : List (String × α)) (k : String) :
    aget (l₁ ++ l₂) k =
      match aget l₁ k with
      | some v => some v
      | Option.none => aget l₂ k := by
  induction l₁ with
  | nil => simp [aget]
  | cons p t ih =>
    obtain ⟨k₀, w⟩ := p
    by_cases hk : k₀ = k
    · simp [aget, hk]
    · simp [aget, hk, ih]

theorem aset_append (m : List (String × α)) (k : String) (v : α)
    (h : aget m k = Option.none) : aset m k v = m ++ [(k, v)] := by
  induction m with
  | nil => simp [aset]
  | cons p t ih =>
    obtain ⟨k₀, w⟩ := p
    by_cases hk : k₀ = k
    · simp [aget, hk] at h
    · simp [aget, hk] at h
      simp [aset, hk, ih h]

theorem aget_eq_none_of_not_mem (m : List (String × α)) (k : String)
    (h : k ∉ m.map Prod.fst) : aget m k = Option.none := by
  induction m with
  | nil => simp [aget]
  | cons p t ih =>
    obtain ⟨k₀, w⟩ := p
    simp only [List.map_cons, List.mem_cons] at h
    push_neg at h
    have hne : ¬k₀ = k := fun hh => h.1 hh.symm
    simp [aget, hne, ih h.2]

end AssocLemmas

section MergeLemmas

theorem updFields_cons (e : Record) (k : String) (v : Value) (t : Record) :
    updFields e ((k, v) :: t) =
      updFields (if v.truthy && !truthyO (aget e k) then aset e k v else e) t := rfl

theorem updFields_truthy (c : Record) : ∀ (e : Record) (F : String),
    truthyO (aget e F) = true → aget (updFields e c) F = aget e F := by
  induction c with
  | nil => intro e F _; rfl
  | cons kv t ih =>
    intro e F h
    obtain ⟨k, v⟩ := kv
    rw [updFields_cons]
    by_cases hcond : (v.truthy && !truthyO (aget e k)) = true
    · have hk : k ≠ F := by
        intro hk
        subst hk
        rw [h] at hcond
        simp at hcond
      rw [if_pos hcond]
      have hget : aget (aset e k v) F = aget e F := aget_aset_ne e k F v (Ne.symm hk)
      have htr : truthyO (aget (aset e k v) F) = true := by rw [hget]; exact h
      rw [ih (aset e k v) F htr, hget]
    · rw [if_neg hcond]
      exact ih e F h

theorem updFields_not_mem (c : Record) : ∀ (e : Record) (F : String),
    F ∉ c.map Prod.fst → aget (updFields e c) F = aget e F := by
  induction c with
  | nil => intro e F _; rfl
  | cons kv t ih =>
    intro e F h
    obtain ⟨k, v⟩ := kv
    simp only [List.map_cons, List.mem_cons] at h
    push_neg at h
    rw [updFields_cons]
    by_cases hcond : (v.truthy && !truthyO (aget e k)) = true
    · rw [if_pos hcond]
      rw [ih _ F h.2, aget_aset_ne e k F v h.1]
    · rw [if_neg hcond]
      exact ih e F h.2

theorem updFields_fill (c : Record) : ∀ (e : Record) (F : String) (w : Value),
    (c.map Prod.fst).Nodup → truthyO (aget e F) = false →
    aget c F = some w → w.truthy = true →
    aget (updFields e c) F = some w := by
  induction c with
  | nil => intro e F w _ _ hc _; simp [aget] at hc
  | cons kv t ih =>
    intro e F w hnd he hc hw
    obtain ⟨k, v⟩ := kv
    simp only [List.map_cons, List.nodup_cons] at hnd
    rw [updFields_cons]
    by_cases hk : k = F
    · subst hk
      simp only [aget, if_pos rfl] at hc
      injection hc with hvw
      subst hvw
      have hcond : (v.truthy && !truthyO (aget e k)) = true := by
        rw [hw, he]; rfl
      rw [if_pos hcond]
      rw [updFields_not_mem t (aset e k v) k hnd.1]
      exact aget_aset_self e k v
    · simp only [aget, if_neg hk] at hc
      by_cases hcond : (v.truthy && !truthyO (aget e k)) = true
      · rw [if_pos hcond]
        have hgF : aget (aset e k v) F = aget e F :=
          aget_aset_ne e k F v (Ne.symm hk)
        apply ih (aset e k v) F w hnd.2 _ hc hw
        rw [hgF]; exact he
      · rw [if_neg hcond]
        exact ih e F w hnd.2 he hc hw

theorem foldl_mstep1_aget (key : Record → String) (A : List Record) (n : String)
    (hn : n ≠ "") : ∀ init, aget (A.foldl (mstep1 key) init) n =
      (recordFor key A n).elim (aget init n) some := by
  induction A with
  | nil => intro init; simp [recordFor, Option.elim]
  | cons c t ih =>
    intro init
    show aget (t.foldl (mstep1 key) (mstep1 key init c)) n = _
    rw [ih (mstep1 key init c)]
    cases hrec : recordFor key t n with
    | some r => simp [recordFor, hrec, Option.elim]
    | none =>
      have hrc : recordFor key (c :: t) n = if key c = n then some c else Option.none := by
        simp [recordFor, hrec]
      rw [hrc]
      unfold mstep1
      by_cases hkc : key c = n
      · have hempty : key c ≠ "" := by rw [hkc]; exact hn
        rw [if_neg hempty, if_pos hkc, hkc]
        simp [aget_aset_self, Option.elim]
      · rw [if_neg hkc]
        by_cases hempty : key c = ""
        · simp [if_pos hempty, Option.elim]
        · rw [if_neg hempty]
          simp [aget_aset_ne init (key c) n c (Ne.symm hkc), Option.elim]

theorem foldl_mstep2_truthy (key : Record → String) (B : List Record) (n F : String) :
    ∀ (m : List (String × Record)) (e : Record),
      aget m n = some e → truthyO (aget e F) = true →
      ∃ g, aget (B.foldl (mstep2 key) m) n = some g ∧ aget g F = aget e F ∧
        truthyO (aget g F) = true := by
  induction B with
  | nil => intro m e hm ht; exact ⟨e, hm, rfl, ht⟩
  | cons c t ih =>
    intro m e hm ht
    show ∃ g, aget (t.foldl (mstep2 key) (mstep2 key m c)) n = some g ∧ _
    by_cases hempty : key c = ""
    · have hm2 : mstep2 key m c = m := by simp [mstep2, hempty]
      rw [hm2]
      exact ih m e hm ht
    · by_cases hkc : key c = n
      · have hm2 : mstep2 key m c = aset m (key c) (updFields e c) := by
          unfold mstep2
          rw [if_neg hempty, hkc, hm]
        have hget : aget (mstep2 key m c) n = some (updFields e c) := by
          rw [hm2, hkc]
          exact aget_aset_self m n (updFields e c)
        have hF : aget (updFields e c) F = aget e F := updFields_truthy c e F ht
        have htr : truthyO (aget (updFields e c) F) = true := by rw [hF]; exact ht
        obtain ⟨g, hg1, hg2, hg3⟩ := ih (mstep2 key m c) (updFields e c) hget htr
        exact ⟨g, hg1, by rw [hg2, hF], hg3⟩
      · have hget : aget (mstep2 key m c) n = some e := by
          unfold mstep2
          rw [if_neg hempty]
          cases haget : aget m (key c) with
          | some e0 => simp [haget, aget_aset_ne m (key c) n _ (Ne.symm hkc), hm]
          | none => simp [haget, aget_aset_ne m (key c) n _ (Ne.symm hkc), hm]
        exact ih (mstep2 key m c) e hget ht

theorem foldl_mstep2_untouched (key : Record → String) (B : List Record) (n : String)
    (h : ∀ c ∈ B, key c ≠ n) :
    ∀ m, aget (B.foldl (mstep2 key) m) n = aget m n := by
  induction B with
  | nil => intro m; rfl
  | cons c t ih =>
    intro m
    have hc : key c ≠ n := h c (List.mem_cons_self c t)
    have ht : ∀ x ∈ t, key x ≠ n := fun x hx => h x (List.mem_cons_of_mem c hx)
    show aget (t.foldl (mstep2 key) (mstep2 key m c)) n = aget m n
    rw [ih ht]
    unfold mstep2
    by_cases hempty : key c = ""
    · simp [hempty]
    · rw [if_neg hempty]
      cases haget : aget m (key c) with
      | some e0 => simp [aget_aset_ne m (key c) n _ (Ne.symm hc)]
      | none => simp [aget_aset_ne m (key c) n _ (Ne.symm hc)]

theorem foldl_mstep1_append (key : Record → String) (A : List Record)
    (h1 : ∀ r ∈ A, key r ≠ "") (h2 : (A.map key).Nodup) :
    ∀ init, (∀ r ∈ A, aget init (key r) = Option.none) →
      A.foldl (mstep1 key) init = init ++ A.map (fun c => (key c, c)) := by
  induction A with
  | nil => intro init _; simp
  | cons c t ih =>
    intro init h3
    simp only [List.map_cons, List.nodup_cons] at h2
    have hc : key c ≠ "" := h1 c (List.mem_cons_self c t)
    have hstep : mstep1 key init c = init ++ [(key c, c)] := by
      unfold mstep1
      rw [if_neg hc]
      exact aset_append init (key c) c (h3 c (List.mem_cons_self c t))
    show t.foldl (mstep1 key) (mstep1 key init c) = _
    rw [hstep]
    rw [ih (fun r hr => h1 r (List.mem_cons_of_mem c hr)) h2.2 (init ++ [(key c, c)]) ?_]
    · simp
    · intro r hr
      rw [aget_append]
      rw [h3 r (List.mem_cons_of_mem c hr)]
      have hne : key c ≠ key r := by
        intro hh
        exact h2.1 (hh ▸ List.mem_map_of_mem key hr)
      simp [aget, fun hh : key c = key r => hne hh]

end MergeLemmas

/-- C1: company-merge precedence. Part one: for company lists A and B and a
company name n present (case-insensitively) in both, a field F that is truthy
in A's record for n keeps A's value in the merged record, regardless of B.
Part two: when F is falsy or missing in A's record for n and B's record for n
(unique in B) carries a truthy value w at F, the merged record holds w — B
only fills gaps. -/
theorem c1_merge_precedence :
    (∀ (A B : List Record) (n F : String) (ra : Record) (v : Value),
      n ≠ "" →
      recordFor lowerName A n = some ra →
      (∃ c ∈ B, lowerName c = n) →
      aget ra F = some v → v.truthy = true →
      ∃ rm, aget (mergedCompanyDict A B) n = some rm ∧ aget rm F = some v ∧
        rm ∈ mergeCompanyData A B) ∧
    (∀ (A B1 B2 : List Record) (rb : Record) (n F : String) (ra : Record) (w : Value),
      n ≠ "" →
      recordFor lowerName A n = some ra →
      lowerName rb = n →
      (∀ c ∈ B1, lowerName c ≠ n) → (∀ c ∈ B2, lowerName c ≠ n) →
      (rb.map Prod.fst).Nodup →
      truthyO (aget ra F) = false →
      aget rb F = some w → w.truthy = true →
      ∃ rm, aget (mergedCompanyDict A (B1 ++ rb :: B2)) n = some rm ∧
        aget rm F = some w ∧ rm ∈ mergeCompanyData A (B1 ++ rb :: B2)) := by
  constructor
  · intro A B n F ra v hn hA _ hv htr
    have hinit : aget (A.foldl (mstep1 lowerName) []) n = some ra := by
      rw [foldl_mstep1_aget lowerName A n hn []]
      simp [hA, Option.elim]
    have htruthy : truthyO (aget ra F) = true := by
      rw [hv]; exact htr
    obtain ⟨g, hg1, hg2, _⟩ :=
      foldl_mstep2_truthy lowerName B n F (A.foldl (mstep1 lowerName) []) ra hinit htruthy
    refine ⟨g, hg1, by rw [hg2, hv], ?_⟩
    exact List.mem_map_of_mem Prod.snd (aget_mem _ n g hg1)
  · intro A B1 B2 rb n F ra w hn hA hrb hB1 hB2 hnd hfalsy hw htr
    have hinit : aget (A.foldl (mstep1 lowerName) []) n = some ra := by
      rw [foldl_mstep1_aget lowerName A n hn []]
      simp [hA, Option.elim]
    have h1 : aget (B1.foldl (mstep2 lowerName) (A.foldl (mstep1 lowerName) [])) n = some ra := by
      rw [foldl_mstep2_untouched lowerName B1 n hB1]
      exact hinit
    set m1 := B1.foldl (mstep2 lowerName) (A.foldl (mstep1 lowerName) []) with hm1
    have hrbne : lowerName rb ≠ "" := by rw [hrb]; exact hn
    have hstep : mstep2 lowerName m1 rb = aset m1 n (updFields ra rb) := by
      unfold mstep2
      rw [if_neg hrbne, hrb, h1]
    have h2 : aget (mstep2 lowerName m1 rb) n = some (updFields ra rb) := by
      rw [hstep]
      exact aget_aset_self m1 n (updFields ra rb)
    have h3 : aget (B2.foldl (mstep2 lowerName) (mstep2 lowerName m1 rb)) n =
        some (updFields ra rb) := by
      rw [foldl_mstep2_untouched lowerName B2 n hB2]
      exact h2
    have hdict : mergedCompanyDict A (B1 ++ rb :: B2) =
        B2.foldl (mstep2 lowerName) (mstep2 lowerName m1 rb) := by
      unfold mergedCompanyDict
      rw [List.foldl_append]
      rfl
    refine ⟨updFields ra rb, by rw [hdict]; exact h3, ?_, ?_⟩
    · exact updFields_fill rb ra F w hnd hfalsy hw htr
    · have hmem : (n, updFields ra rb) ∈ mergedCompanyDict A (B1 ++ rb :: B2) := by
        apply aget_mem
        rw [hdict]; exact h3
      exact List.mem_map_of_mem Prod.snd hmem

/-- C1 witness: the spec.md section 8 example. A's truthy website a.com wins
over B's b.com, and B's founded 2020 fills A's gap. -/
theorem c1_merge_precedence_witness :
    (∃ rm, aget (mergedCompanyDict [exCompanyA] [exCompanyB]) "acme" = some rm ∧
      aget rm "website" = some (Value.str "a.com") ∧
      rm ∈ mergeCompanyData [exCompanyA] [exCompanyB]) ∧
    (∃ rm, aget (mergedCompanyDict [exCompanyA] [exCompanyB]) "acme" = some rm ∧
      aget rm "founded" = some (Value.str "2020") ∧
      rm ∈ mergeCompanyData [exCompanyA] [exCompanyB]) := by
  constructor
  · exact c1_merge_precedence.1 [exCompanyA] [exCompanyB] "acme" "website" exCompanyA
      (Value.str "a.com") (by decide) (by rfl) ⟨exCompanyB, by simp, by rfl⟩ (by rfl) (by rfl)
  · exact c1_merge_precedence.2 [exCompanyA] [] [] exCompanyB "acme" "founded" exCompanyA
      (Value.str "2020") (by decide) (by rfl) (by rfl) (by simp) (by simp) (by decide)
      (by rfl) (by rfl) (by rfl)

/-- C6 counterexample: the record without a name field is dropped by the
merge, so merging with an empty right operand is not the identity on every
list — the claim as stated fails. -/
theorem c6_merge_empty_counterexample :
    mergeCompanyData [([] : Record)] [] = [] ∧ [([] : Record)] ≠ [] := by
  constructor
  · rfl
  · simp

/-- C6 amended: merging A with an empty B returns exactly A (same records,
same order) for every A whose records carry nonempty names with pairwise
distinct lowercasings — the keys under which a dict keeps them apart. -/
theorem c6_merge_empty_right (A : List Record)
    (h1 : ∀ r ∈ A, lowerName r ≠ "") (h2 : (A.map lowerName).Nodup) :
    mergeCompanyData A [] = A := by
  show (([].foldl (mstep2 lowerName) (A.foldl (mstep1 lowerName) [])).map Prod.snd) = A
  rw [List.foldl_nil]
  rw [foldl_mstep1_append lowerName A h1 h2 [] (fun r _ => rfl)]
  simp only [List.nil_append, List.map_map]
  exact List.map_id A

/-- C6 witness: the amended identity merge evaluated on a concrete two-company
list. -/
theorem c6_merge_empty_right_witness :
    (∀ r ∈ exCompanyList, lowerName r ≠ "") ∧ (exCompanyList.map lowerName).Nodup ∧
      mergeCompanyData exCompanyList [] = exCompanyList :=
  ⟨by decide, by decide, c6_merge_empty_right exCompanyList (by decide) (by decide)⟩

section RoundingLemmas

theorem ratFloor_eq_floor (x : ℚ) : Rat.floor x = ⌊x⌋ :=
  eq_of_forall_le_iff fun _ => Rat.le_floor.trans Int.le_floor.symm

theorem floor_le_roundHalfEven (x : ℚ) : ⌊x⌋ ≤ roundHalfEven x := by
  unfold roundHalfEven
  rw [ratFloor_eq_floor]
  split_ifs <;> omega

theorem roundHalfEven_le_floor_add_one (x : ℚ) : roundHalfEven x ≤ ⌊x⌋ + 1 := by
  unfold roundHalfEven
  rw [ratFloor_eq_floor]
  split_ifs <;> omega

theorem roundHalfEven_nonneg (x : ℚ) (h : 0 ≤ x) : 0 ≤ roundHalfEven x :=
  le_trans (Int.floor_nonneg.mpr h) (floor_le_roundHalfEven x)

theorem roundHalfEven_mono {x y : ℚ} (h : x ≤ y) : roundHalfEven x ≤ roundHalfEven y := by
  have hf : ⌊x⌋ ≤ ⌊y⌋ := Int.floor_le_floor h
  by_cases hfe : ⌊x⌋ = ⌊y⌋
  · have hr : x - ((⌊y⌋ : ℤ) : ℚ) ≤ y - ((⌊y⌋ : ℤ) : ℚ) := sub_le_sub_right h _
    unfold roundHalfEven
    rw [ratFloor_eq_floor x, ratFloor_eq_floor y, hfe]
    split_ifs <;> first | omega | linarith
  · have hlt : ⌊x⌋ < ⌊y⌋ := lt_of_le_of_ne hf hfe
    unfold roundHalfEven
    rw [ratFloor_eq_floor x, ratFloor_eq_floor y]
    split_ifs <;> omega

end RoundingLemmas

section MinMaxLemmas

theorem foldl_min_le_init (t : List ℚ) : ∀ a : ℚ, t.foldl min a ≤ a := by
  induction t with
  | nil => intro a; simp
  | cons b t ih => intro a; exact le_trans (ih (min a b)) (min_le_left a b)

theorem le_foldl_max (t : List ℚ) : ∀ a : ℚ, a ≤ t.foldl max a := by
  induction t with
  | nil => intro a; simp
  | cons b t ih => intro a; exact le_trans (le_max_left a b) (ih (max a b))

theorem foldl_min_mem (t : List ℚ) : ∀ a : ℚ, t.foldl min a ∈ a :: t := by
  induction t with
  | nil => intro a; simp
  | cons b t ih =>
    intro a
    rw [List.foldl_cons]
    rcases List.mem_cons.mp (ih (min a b)) with h1 | h1
    · rw [h1]
      rcases min_choice a b with hm | hm
      · rw [hm]; exact List.mem_cons_self a _
      · rw [hm]; exact List.mem_cons_of_mem a (List.mem_cons_self b t)
    · exact List.mem_cons_of_mem a (List.mem_cons_of_mem b h1)

theorem minQ_le_maxQ (l : List ℚ) (h : l ≠ []) : minQ l ≤ maxQ l := by
  cases l with
  | nil => exact absurd rfl h
  | cons a t => exact le_trans (foldl_min_le_init t a) (le_foldl_max t a)

theorem minQ_mem (l : List ℚ) (h : l ≠ []) : minQ l ∈ l := by
  cases l with
  | nil => exact absurd rfl h
  | cons a t => exact foldl_min_mem t a

theorem positiveAmounts_pos (deals : List Record) (x : ℚ)
    (hx : x ∈ positiveAmounts deals) : 0 < x := by
  unfold positiveAmounts at hx
  rcases List.mem_filterMap.mp hx with ⟨d, _, hd⟩
  by_cases h0 : 0 < amountOf d
  · rw [if_pos h0] at hd
    injection hd with h
    rw [← h]
    exact h0
  · rw [if_neg h0] at hd
    exact absurd hd (by simp)

end MinMaxLemmas

theorem leadCounts_eq (deals : List Record) :
    leadCounts deals = (deals.countP isLeadTruthy, deals.length) := by
  suffices h : ∀ (l : List Record) (a b : ℕ),
      l.foldl (fun p d => (if isLeadTruthy d then p.1 + 1 else p.1, p.2 + 1)) (a, b) =
        (a + l.countP isLeadTruthy, b + l.length) by
    simpa [leadCounts] using h deals 0 0
  intro l
  induction l with
  | nil => intro a b; simp
  | cons d t ih =>
    intro a b
    simp only [List.foldl_cons, List.countP_cons, List.length_cons]
    rw [ih]
    by_cases hd : isLeadTruthy d
    · simp only [hd, if_pos, if_true, Prod.mk.injEq]
      constructor <;> omega
    · simp only [hd, if_false, Bool.false_eq_true, Prod.mk.injEq]
      constructor <;> omega

theorem sweetSpot_exDeals : calculateSweetSpot exDeals = 5250 := by
  norm_num [calculateSweetSpot, positiveAmounts, amountOf, exDeals, sortQ,
    List.insertionSort, List.orderedInsert, aget, roundHalfEven, ratFloor_eq_floor,
    Option.some_ne_none]

/-- C4: the check sweet spot of a deal list with at least one positive amount
is the median of the positive amounts (average of the two middle values for
an even count) divided by 1000 and rounded to the nearest multiple of 50
(Python half-to-even ties); the four-amount spec example yields 5250,
formatted as 5.2M dollars; without positive amounts the formatted sweet spot
is Unknown. -/
theorem c4_sweet_spot_median :
    (∀ deals : List Record, positiveAmounts deals ≠ [] →
      calculateSweetSpot deals = specRound50 (medianQ (positiveAmounts deals) / 1000)) ∧
    calculateSweetSpot exDeals = 5250 ∧
    formatSweetSpot (calculateSweetSpot exDeals) = "$5.2M" ∧
    (∀ deals : List Record, positiveAmounts deals = [] →
      formatSweetSpot (calculateSweetSpot deals) = "Unknown") := by
  refine ⟨?_, sweetSpot_exDeals, ?_, ?_⟩
  · intro deals h
    unfold calculateSweetSpot specRound50 medianQ
    rw [if_neg h]
    push_cast
    ring
  · rw [sweetSpot_exDeals]
    norm_num [formatSweetSpot, fmtOneDec, intStr, roundHalfEven, ratFloor_eq_floor]
    decide
  · intro deals h
    unfold calculateSweetSpot
    rw [if_pos h]
    rfl

/-- C4 witness: the main equation applied to the concrete four-deal example
and the empty-amount case applied to the empty deal list. -/
theorem c4_sweet_spot_median_witness :
    positiveAmounts exDeals ≠ [] ∧
    calculateSweetSpot exDeals = specRound50 (medianQ (positiveAmounts exDeals) / 1000) ∧
    positiveAmounts ([] : List Record) = [] ∧
    formatSweetSpot (calculateSweetSpot ([] : List Record)) = "Unknown" :=
  ⟨by decide, c4_sweet_spot_median.1 exDeals (by decide), rfl,
    c4_sweet_spot_median.2.2.2 [] rfl⟩

/-- C5: the lead/follow classification equals the claim's ratio rule — Lead
when at least 70 percent of deals have a truthy is_lead, Follow at 30 percent
or less, Both strictly in between, Unknown for the empty list — and the
concrete 7/10, 3/10, 5/10 and empty examples classify as stated. -/
theorem c5_lead_follow :
    (∀ deals : List Record, determineLeadFollow deals = specLeadFollow deals) ∧
    determineLeadFollow exLead7 = "Lead" ∧ determineLeadFollow exLead3 = "Follow" ∧
    determineLeadFollow exLead5 = "Both" ∧ determineLeadFollow [] = "Unknown" := by
  refine ⟨?_, ?_, ?_, ?_, rfl⟩
  · intro deals
    unfold determineLeadFollow specLeadFollow
    rw [leadCounts_eq]
  · norm_num [determineLeadFollow, leadCounts, exLead7, leadDeal, followDeal, isLeadTruthy,
      aget, truthyO, Value.truthy, List.replicate]
  · norm_num [determineLeadFollow, leadCounts, exLead3, leadDeal, followDeal, isLeadTruthy,
      aget, truthyO, Value.truthy, List.replicate]
  · norm_num [determineLeadFollow, leadCounts, exLead5, leadDeal, followDeal, isLeadTruthy,
      aget, truthyO, Value.truthy, List.replicate]

/-- C10: the check range is well-formed — both bounds are nonnegative integer
multiples of 50 (in thousands), the low bound is at most the high bound, and
a deal list without positive amounts yields the pair (0, 0). -/
theorem c10_check_range_wellformed (deals : List Record) :
    0 ≤ (calculateCheckRange deals).1 ∧
    (calculateCheckRange deals).1 ≤ (calculateCheckRange deals).2 ∧
    (∃ m : ℤ, (calculateCheckRange deals).1 = (m : ℚ) * 50) ∧
    (∃ m : ℤ, (calculateCheckRange deals).2 = (m : ℚ) * 50) ∧
    (positiveAmounts deals = [] → calculateCheckRange deals = (0, 0)) := by
  by_cases h : positiveAmounts deals = []
  · unfold calculateCheckRange
    rw [if_pos h]
    exact ⟨le_refl 0, le_refl 0, ⟨0, by norm_num⟩, ⟨0, by norm_num⟩, fun _ => rfl⟩
  · have hpos : 0 < minQ (positiveAmounts deals) :=
      positiveAmounts_pos deals _ (minQ_mem _ h)
    have hab : minQ (positiveAmounts deals) ≤ maxQ (positiveAmounts deals) :=
      minQ_le_maxQ _ h
    have h1 : (0 : ℤ) ≤ roundHalfEven (minQ (positiveAmounts deals) / 1000 / 50) :=
      roundHalfEven_nonneg _ (by positivity)
    have h2 : roundHalfEven (minQ (positiveAmounts deals) / 1000 / 50) ≤
        roundHalfEven (maxQ (positiveAmounts deals) / 1000 / 50) := by
      apply roundHalfEven_mono
      gcongr
    unfold calculateCheckRange
    rw [if_neg h]
    refine ⟨?_, ?_, ?_, ?_, fun hc => absurd hc h⟩
    · show (0 : ℚ) ≤ ((roundHalfEven (minQ (positiveAmounts deals) / 1000 / 50) * 50 : ℤ) : ℚ)
      exact_mod_cast mul_nonneg h1 (by norm_num)
    · show ((roundHalfEven (minQ (positiveAmounts deals) / 1000 / 50) * 50 : ℤ) : ℚ) ≤
        ((roundHalfEven (maxQ (positiveAmounts deals) / 1000 / 50) * 50 : ℤ) : ℚ)
      exact_mod_cast mul_le_mul_of_nonneg_right h2 (by norm_num)
    · exact ⟨roundHalfEven (minQ (positiveAmounts deals) / 1000 / 50), by push_cast; ring⟩
    · exact ⟨roundHalfEven (maxQ (positiveAmounts deals) / 1000 / 50), by push_cast; ring⟩

/-- C2 counterexample: with a nonempty 9-character Crunchbase description and
a PitchBook description longer than 20 characters, the code synthesizes a
Pattern thesis instead of using the long description verbatim, refuting the
claim's either-source condition. -/
theorem c2_thesis_counterexample :
    20 < (getStrD exPbLong "description").length ∧
    deriveInvestmentThesis exCbShort exPbLong [] [] [] =
      "Pattern: General investment approach across various sectors and stages." ∧
    deriveInvestmentThesis exCbShort exPbLong [] [] [] ≠
      "Thesis: " ++ getStrD exPbLong "description" := by
  refine ⟨by decide, by decide, by decide⟩

/-- C2 amended: the derivation keys on the first truthy description — the
Crunchbase description if nonempty, else PitchBook's. If that description
exceeds 20 characters the thesis is it, prefixed Thesis: and verbatim; only
otherwise is the Pattern thesis synthesized from the top-3 sectors, the
preferred stages and up to 3 sample portfolio names. -/
theorem c2_thesis_amended (cbInfo pbInfo : Record) (sectors stages : List String)
    (portfolio : List Record) :
    (20 < (descOf cbInfo pbInfo).length →
      deriveInvestmentThesis cbInfo pbInfo sectors stages portfolio =
        "Thesis: " ++ descOf cbInfo pbInfo) ∧
    ((descOf cbInfo pbInfo).length ≤ 20 →
      deriveInvestmentThesis cbInfo pbInfo sectors stages portfolio =
        patternThesis sectors stages portfolio) := by
  constructor
  · intro h
    have hne : descOf cbInfo pbInfo ≠ "" := by
      intro he
      rw [he] at h
      simp at h
    unfold deriveInvestmentThesis
    rw [if_pos ⟨hne, h⟩]
  · intro h
    have hnot : ¬(descOf cbInfo pbInfo ≠ "" ∧ 20 < (descOf cbInfo pbInfo).length) :=
      fun hcon => absurd hcon.2 (not_lt.mpr h)
    unfold deriveInvestmentThesis
    rw [if_neg hnot]

/-- C2 witness: the amended rule applied to a record pair with a long
PitchBook description and no Crunchbase description, and to the
short-description counterexample inputs. -/
theorem c2_thesis_amended_witness :
    deriveInvestmentThesis [] exPbLong [] [] [] = "Thesis: " ++ descOf [] exPbLong ∧
    deriveInvestmentThesis exCbShort exPbLong [] [] [] = patternThesis [] [] [] :=
  ⟨(c2_thesis_amended [] exPbLong [] [] []).1 (by decide),
    (c2_thesis_amended exCbShort exPbLong [] [] []).2 (by decide)⟩

theorem aget_setAll (kvs : List (String × Value)) :
    ∀ (r : Record) (k : String), aget (setAll r kvs) k =
      match aget kvs.reverse k with
      | some v => some v
      | Option.none => aget r k := by
  induction kvs with
  | nil => intro r k; simp [setAll, aget]
  | cons kv t ih =>
    intro r k
    obtain ⟨k0, v0⟩ := kv
    show aget (setAll (aset r k0 v0) t) k = _
    rw [ih (aset r k0 v0) k, List.reverse_cons, aget_append]
    cases h : aget t.reverse k with
    | some v => rfl
    | none =>
      by_cases hk : k0 = k
      · subst hk
        simp [aget, aget_aset_self]
      · simp [aget, hk, aget_aset_ne r k0 k v0 (Ne.symm hk)]

theorem foldl_append_map {α β : Type} (f : α → β) (l : List α) :
    ∀ acc : List β, l.foldl (fun a x => a ++ [f x]) acc = acc ++ l.map f := by
  induction l with
  | nil => intro acc; simp
  | cons x t ih => intro acc; rw [List.foldl_cons, ih (acc ++ [f x])]; simp

/-- C3 counterexample: on an input record with no Name field the enrichment
returns the input unchanged, so the result of the single-firm enrichment can
lack the list-valued profile fields entirely — the claim's inclusion of
nameless inputs fails. -/
theorem c3_profile_shape_counterexample :
    enrichVCData failProvider [] = [] ∧ aget ([] : Record) "Sector Focus" = Option.none :=
  ⟨rfl, rfl⟩

/-- C3 amended: for every provider oracle and every input record whose Name
field is a nonempty string, the enriched record carries every list-valued
profile field as a present list and every derived string field as a present
string, on the success path and on the caught-failure path alike. -/
theorem c3_profile_shape_amended (P : Provider) (vc : Record)
    (h : ¬getStrD vc "Name" = "") :
    (∃ s, aget (enrichVCData P vc) "About" = some (Value.str s)) ∧
    (∃ s, aget (enrichVCData P vc) "Investment Thesis" = some (Value.str s)) ∧
    (∃ l, aget (enrichVCData P vc) "Sector Focus" = some (Value.list l)) ∧
    (∃ l, aget (enrichVCData P vc) "Preferred Deal Stage" = some (Value.list l)) ∧
    (∃ s, aget (enrichVCData P vc) "Check Range" = some (Value.str s)) ∧
    (∃ s, aget (enrichVCData P vc) "Check Sweet Spot" = some (Value.str s)) ∧
    (∃ s, aget (enrichVCData P vc) "Geo Focus" = some (Value.str s)) ∧
    (∃ s, aget (enrichVCData P vc) "Status" = some (Value.str s)) ∧
    (∃ s, aget (enrichVCData P vc) "Lead/Follow" = some (Value.str s)) ∧
    (∃ l, aget (enrichVCData P vc) "Portfolio" = some (Value.list l)) ∧
    (∃ l, aget (enrichVCData P vc) "Deals" = some (Value.list l)) := by
  unfold enrichVCData
  rw [if_neg h]
  cases hP : P (getStrD vc "Name") with
  | error e =>
    simp only [defaultedRecord]
    refine ⟨?_, ?_, ?_, ?_, ?_, ?_, ?_, ?_, ?_, ?_, ?_⟩ <;>
      (rw [aget_setAll]; exact ⟨_, rfl⟩)
  | ok pd =>
    simp only [enrichOk]
    refine ⟨?_, ?_, ?_, ?_, ?_, ?_, ?_, ?_, ?_, ?_, ?_⟩ <;>
      (rw [aget_setAll]; exact ⟨_, rfl⟩)

/-- C3 witness: the amended shape statement evaluated on a concrete firm with
a failing provider, plus the hypothesis that its name is nonempty. -/
theorem c3_profile_shape_amended_witness :
    ¬getStrD exFirm "Name" = "" ∧
    (∃ l, aget (enrichVCData failProvider exFirm) "Sector Focus" = some (Value.list l)) ∧
    (∃ s, aget (enrichVCData failProvider exFirm) "Check Range" = some (Value.str s)) :=
  ⟨by decide, (c3_profile_shape_amended failProvider exFirm (by decide)).2.2.1,
    (c3_profile_shape_amended failProvider exFirm (by decide)).2.2.2.2.1⟩

/-- C7: batch enrichment maps every input firm to exactly one output record
in input order; a provider failure for a named firm is caught at the firm
boundary and replaced by the defaulted record, which preserves every input
field outside the derived keys and sets every derived field to its
unknown/empty default (empty lists, Unknown strings, USA geo). -/
theorem c7_batch_isolation :
    (∀ (P : Provider) (l : List Record), enrichMultipleVCs P l = l.map (enrichVCData P)) ∧
    (∀ (P : Provider) (vc : Record) (e : String),
      ¬getStrD vc "Name" = "" → P (getStrD vc "Name") = Except.error e →
      enrichVCData P vc = defaultedRecord vc) ∧
    (∀ (vc : Record) (k : String), k ∉ defaultFields.map Prod.fst →
      aget (defaultedRecord vc) k = aget vc k) ∧
    (∀ vc : Record,
      aget (defaultedRecord vc) "About" = some (Value.str "") ∧
      aget (defaultedRecord vc) "Investment Thesis" = some (Value.str "") ∧
      aget (defaultedRecord vc) "Sector Focus" = some (Value.list []) ∧
      aget (defaultedRecord vc) "Preferred Deal Stage" = some (Value.list []) ∧
      aget (defaultedRecord vc) "Check Range" = some (Value.str "Unknown") ∧
      aget (defaultedRecord vc) "Check Sweet Spot" = some (Value.str "Unknown") ∧
      aget (defaultedRecord vc) "Geo Focus" = some (Value.str "USA") ∧
      aget (defaultedRecord vc) "Status" = some (Value.str "Unknown") ∧
      aget (defaultedRecord vc) "Lead/Follow" = some (Value.str "Unknown") ∧
      aget (defaultedRecord vc) "Portfolio" = some (Value.list []) ∧
      aget (defaultedRecord vc) "Deals" = some (Value.list [])) := by
  refine ⟨?_, ?_, ?_, ?_⟩
  · intro P l
    unfold enrichMultipleVCs
    rw [foldl_append_map]
    rfl
  · intro P vc e hname hP
    unfold enrichVCData
    rw [if_neg hname, hP]
  · intro vc k hk
    unfold defaultedRecord
    rw [aget_setAll]
    have hnone : aget (List.reverse defaultFields) k = Option.none := by
      apply aget_eq_none_of_not_mem
      simp only [List.map_reverse, List.mem_reverse]
      exact hk
    rw [hnone]
  · intro vc
    unfold defaultedRecord
    refine ⟨?_, ?_, ?_, ?_, ?_, ?_, ?_, ?_, ?_, ?_, ?_⟩ <;> (rw [aget_setAll]; rfl)

/-- C7 witness: the batch equation, the caught failure, the preserved input
field and a defaulted derived field evaluated on a concrete firm with a
failing provider. -/
theorem c7_batch_isolation_witness :
    enrichMultipleVCs failProvider [exFirm] = [enrichVCData failProvider exFirm] ∧
    enrichVCData failProvider exFirm = defaultedRecord exFirm ∧
    aget (defaultedRecord exFirm) "Website" = aget exFirm "Website" ∧
    aget (defaultedRecord exFirm) "Sector Focus" = some (Value.list []) :=
  ⟨c7_batch_isolation.1 failProvider [exFirm],
    c7_batch_isolation.2.1 failProvider exFirm "network error" (by decide) rfl,
    c7_batch_isolation.2.2.1 exFirm "Website" (by decide),
    (c7_batch_isolation.2.2.2 exFirm).2.2.1⟩

section SectorLemmas

theorem if_some_eq {α : Type} (c : Prop) [Decidable c] (a x : α) :
    ((if c then some a else Option.none) = some x) ↔ (c ∧ a = x) := by
  by_cases h : c <;> simp [h]

theorem filterMap_if_bool {α β γ : Type} (l : List α) (c c' : α → Bool)
    (f : α → β) (g : α → γ) (h : γ → β)
    (hcc : ∀ a ∈ l, c a = c' a) (hfg : ∀ a ∈ l, c a = true → f a = h (g a)) :
    l.filterMap (fun a => if c a then some (f a) else Option.none) =
      (l.filterMap (fun a => if c' a then some (g a) else Option.none)).map h := by
  induction l with
  | nil => rfl
  | cons x t ih =>
    have hx : c x = c' x := hcc x (List.mem_cons_self x t)
    have iht := ih (fun a ha => hcc a (List.mem_cons_of_mem x ha))
      (fun a ha hca => hfg a (List.mem_cons_of_mem x ha) hca)
    by_cases hcx : c x = true
    · have hcx' : c' x = true := hx ▸ hcx
      simp [List.filterMap_cons, hcx, hcx', hfg x (List.mem_cons_self x t) hcx, iht]
    · have hcx' : ¬c' x = true := by rw [← hx]; exact hcx
      simp [List.filterMap_cons, hcx, hcx', iht]

theorem contains_eq_true_iff_mem {l : List String} {a : String} :
    l.contains a = true ↔ a ∈ l := by
  induction l with
  | nil => simp
  | cons x t ih => simp [List.contains_cons, ih]

theorem aget_of_mem_nodup {α : Type} {l : List (String × α)}
    (hnd : (l.map Prod.fst).Nodup) {k : String} {v : α} (hm : (k, v) ∈ l) :
    aget l k = some v := by
  induction l with
  | nil => cases hm
  | cons p t ih =>
    simp only [List.map_cons, List.nodup_cons] at hnd
    rcases List.mem_cons.mp hm with heq | hm2
    · rw [← heq]
      simp [aget]
    · have hne : p.1 ≠ k := by
        intro hh
        apply hnd.1
        have : k ∈ t.map Prod.fst := List.mem_map.mpr ⟨(k, v), hm2, rfl⟩
        rw [hh]
        exact this
      simp [aget, hne, ih hnd.2 hm2]

theorem sectorVocab_names_nodup : (sectorVocab.map Prod.fst).Nodup := by decide

theorem mem_flaggedSectors {text s : String} :
    s ∈ flaggedSectors text ↔
      ∃ p ∈ sectorVocab,
        (p.2.any fun kw => listContains kw.data (strLower text).data) = true ∧ p.1 = s := by
  unfold flaggedSectors
  simp [List.mem_filterMap, if_some_eq]

theorem contains_flagged_eq {text : String} {p : String × List String}
    (hp : p ∈ sectorVocab) :
    (flaggedSectors text).contains p.1 =
      (p.2.any fun kw => listContains kw.data (strLower text).data) := by
  by_cases h : (p.2.any fun kw => listContains kw.data (strLower text).data) = true
  · rw [h]
    exact contains_eq_true_iff_mem.mpr (mem_flaggedSectors.mpr ⟨p, hp, h, rfl⟩)
  · have hmem : p.1 ∉ flaggedSectors text := by
      intro hin
      rcases mem_flaggedSectors.mp hin with ⟨q, hq, hcond, hq1⟩
      have hpq : q = p :=
        List.inj_on_of_nodup_map sectorVocab_names_nodup hq hp hq1
      rw [hpq] at hcond
      exact h hcond
    have hc : ¬(flaggedSectors text).contains p.1 = true := fun hcon =>
      hmem (contains_eq_true_iff_mem.mp hcon)
    rw [Bool.not_eq_true] at hc
    rw [hc]
    cases hany : (p.2.any fun kw => listContains kw.data (strLower text).data) with
    | false => rfl
    | true => exact absurd hany h

theorem sectorScoresList_eq (text : String) :
    sectorScoresList text =
      (flaggedSectors text).map (fun s => (s, sectorScore text s)) := by
  unfold sectorScoresList
  conv_rhs => rw [flaggedSectors]
  rw [filterMap_if_bool sectorVocab
    (fun p => (flaggedSectors text).contains p.1)
    (fun p => p.2.any fun kw => listContains kw.data (strLower text).data)
    (fun p => (p.1, textScore (strLower text).data p.2))
    (fun p => p.1)
    (fun s => (s, sectorScore text s))
    (fun p hp => contains_flagged_eq hp)
    ?_]
  intro p hp _
  have hget : aget sectorVocab p.1 = some p.2 := by
    apply aget_of_mem_nodup sectorVocab_names_nodup
    exact hp
  simp [sectorScore, hget]

theorem mem_sorted_scores_form (text : String) {q : String × ℕ}
    (hq : q ∈ List.insertionSort (fun a b : String × ℕ => b.2 ≤ a.2)
      (sectorScoresList text)) :
    q.2 = sectorScore text q.1 ∧ q.1 ∈ flaggedSectors text := by
  have hmem : q ∈ sectorScoresList text :=
    (List.perm_insertionSort (fun a b : String × ℕ => b.2 ≤ a.2)
      (sectorScoresList text)).mem_iff.mp hq
  rw [sectorScoresList_eq] at hmem
  rcases List.mem_map.mp hmem with ⟨s, hs, hq2⟩
  rw [← hq2]
  exact ⟨rfl, hs⟩

end SectorLemmas

/-- C8: the sector classifier returns at most five sectors; with at most five
flagged sectors it returns exactly the flagged sectors in vocabulary order;
with more than five it returns exactly five, ordered by descending total
keyword-occurrence count, and no flagged sector left out scores strictly
higher than any returned sector. -/
theorem c8_sector_cap (text : String) :
    (extractSectors text).length ≤ 5 ∧
    ((flaggedSectors text).length ≤ 5 → extractSectors text = flaggedSectors text) ∧
    (5 < (flaggedSectors text).length →
      (extractSectors text).length = 5 ∧
      (extractSectors text).Pairwise (fun a b => sectorScore text b ≤ sectorScore text a) ∧
      (∀ s ∈ flaggedSectors text, s ∉ extractSectors text →
        ∀ u ∈ extractSectors text, sectorScore text s ≤ sectorScore text u)) := by
  by_cases h5 : 5 < (flaggedSectors text).length
  · have hx : extractSectors text =
        ((List.insertionSort (fun a b : String × ℕ => b.2 ≤ a.2)
          (sectorScoresList text)).take 5).map Prod.fst := by
      unfold extractSectors
      rw [if_pos h5]
    have hlenS : (List.insertionSort (fun a b : String × ℕ => b.2 ≤ a.2)
        (sectorScoresList text)).length = (flaggedSectors text).length := by
      rw [List.length_insertionSort, sectorScoresList_eq, List.length_map]
    have hlen : (extractSectors text).length = 5 := by
      rw [hx, List.length_map, List.length_take, hlenS]
      omega
    have hsorted : (List.insertionSort (fun a b : String × ℕ => b.2 ≤ a.2)
        (sectorScoresList text)).Pairwise (fun a b => b.2 ≤ a.2) :=
      List.sorted_insertionSort (fun a b : String × ℕ => b.2 ≤ a.2) (sectorScoresList text)
    refine ⟨by omega, fun hc => absurd h5 (not_lt.mpr hc), fun _ => ⟨hlen, ?_, ?_⟩⟩
    · rw [hx, List.pairwise_map]
      apply List.Pairwise.imp_of_mem ?_
        ((hsorted.sublist (List.take_sublist 5 _) : _))
      intro a b ha hb hr
      have hfa := (mem_sorted_scores_form text ((List.take_sublist 5 _).subset ha)).1
      have hfb := (mem_sorted_scores_form text ((List.take_sublist 5 _).subset hb)).1
      rw [← hfa, ← hfb]
      exact hr
    · intro s hs hns u hu
      rw [hx] at hns hu
      have hsmem : (s, sectorScore text s) ∈ List.insertionSort
          (fun a b : String × ℕ => b.2 ≤ a.2) (sectorScoresList text) := by
        apply (List.perm_insertionSort (fun a b : String × ℕ => b.2 ≤ a.2)
          (sectorScoresList text)).mem_iff.mpr
        rw [sectorScoresList_eq]
        exact List.mem_map.mpr ⟨s, hs, rfl⟩
      rcases List.mem_map.mp hu with ⟨q, hq, hq1⟩
      have hsplit : (s, sectorScore text s) ∈
          (List.insertionSort (fun a b : String × ℕ => b.2 ≤ a.2)
            (sectorScoresList text)).take 5 ++
          (List.insertionSort (fun a b : String × ℕ => b.2 ≤ a.2)
            (sectorScoresList text)).drop 5 := by
        rw [List.take_append_drop]
        exact hsmem
      have hdrop : (s, sectorScore text s) ∈ (List.insertionSort
          (fun a b : String × ℕ => b.2 ≤ a.2) (sectorScoresList text)).drop 5 := by
        rcases List.mem_append.mp hsplit with hin | hin
        · exact absurd (List.mem_map.mpr ⟨(s, sectorScore text s), hin, rfl⟩) hns
        · exact hin
      have hPW : List.Pairwise (fun a b : String × ℕ => b.2 ≤ a.2)
          ((List.insertionSort (fun a b : String × ℕ => b.2 ≤ a.2)
            (sectorScoresList text)).take 5 ++
           (List.insertionSort (fun a b : String × ℕ => b.2 ≤ a.2)
            (sectorScoresList text)).drop 5) := by
        rw [List.take_append_drop]
        exact hsorted
      have hcross := (List.pairwise_append.mp hPW).2.2
      have := hcross q hq (s, sectorScore text s) hdrop
      have hfq := (mem_sorted_scores_form text ((List.take_sublist 5 _).subset hq)).1
      rw [← hq1, ← hfq]
      exact this
  · have hx : extractSectors text = flaggedSectors text := by
      unfold extractSectors
      rw [if_neg h5]
    refine ⟨?_, fun _ => hx, fun hc => absurd hc h5⟩
    rw [hx]
    omega

/-- C8 witness: a one-sector text returns its flagged list unchanged, and a
seven-sector text is capped to exactly five. -/
theorem c8_sector_cap_witness :
    (flaggedSectors exTextSmall).length ≤ 5 ∧
    extractSectors exTextSmall = flaggedSectors exTextSmall ∧
    5 < (flaggedSectors exTextBig).length ∧
    (extractSectors exTextBig).length = 5 :=
  ⟨by decide, (c8_sector_cap exTextSmall).2.1 (by decide), by decide,
    ((c8_sector_cap exTextBig).2.2 (by decide)).1⟩

/-- C9: the fallback matcher is deterministic — for a fixed startup
description, VC list and match limit, two runs of the embedded
_fallback_matching produce identical ranked outputs: the same profiles with
the same match scores, reasons and order. The embedding is a pure function
of its inputs, faithfully covering the keyword inference, scoring, stable
descending sort and truncation of the source, which draws on no source of
randomness. -/
theorem c9_fallback_deterministic (startupDescription : String) (vcData : List Record)
    (numMatches : ℕ) :
    fallbackMatching startupDescription vcData numMatches =
      fallbackMatching startupDescription vcData numMatches := rfl

/-- C10 witness: the well-formedness statement evaluated at the four-deal
example and the empty-input clause evaluated at the empty list. -/
theorem c10_check_range_wellformed_witness :
    0 ≤ (calculateCheckRange exDeals).1 ∧
    (calculateCheckRange exDeals).1 ≤ (calculateCheckRange exDeals).2 ∧
    calculateCheckRange ([] : List Record) = (0, 0) :=
  ⟨(c10_check_range_wellformed exDeals).1, (c10_check_range_wellformed exDeals).2.1,
    (c10_check_range_wellformed ([] : List Record)).2.2.2.2 rfl⟩

end VCApp
